import Mathlib

/-!
Shallow embedding of the incremental build and filtering core of `automlsa2`
(source files `blast_functions.py`, `formatting.py`, `helper_functions.py`,
`configuration.py`, `mafft.py`).

Modelling conventions:
* Python `float` values (bit scores, percent identities, percentages) are
  modelled as exact rationals (`Rat`); only comparisons and small exact
  arithmetic are performed on them in the source.
* Python `int` is modelled as `Int` (or `Nat` where the source value is a
  count or an index that is provably non-negative).
* pandas `DataFrame` rows are modelled as a `List` of records; the frame
  index (original row order) is the `idx` field, strictly increasing in the
  list that models a frame.
* pandas `sort_values` on several keys is a stable sort; it is modelled by
  `List.insertionSort`, which is stable (`List.pair_sublist_insertionSort`).
-/

namespace AutoMLSA

open List

/-- One row of the BLAST results table built in `read_blast_results`
(`blast_functions.py`), with the pandas frame index carried as `idx`.
Columns: qseqid, sseqid, saccver, pident, qlen, length, bitscore, qcovhsp,
stitle, sseq; `sseqid` holds the integer genome label. -/
structure HitRecord where
  idx : Nat
  qseqid : String
  sseqid : Nat
  saccver : String
  pident : Rat
  qlen : Nat
  length : Nat
  bitscore : Rat
  qcovhsp : Int
  stitle : String
  sseq : String
deriving DecidableEq

/-- The pair a hit is deduplicated on: `['qseqid', 'sseqid']`. -/
def hitKey (r : HitRecord) : String × Nat := (r.qseqid, r.sseqid)

/-- The comparison used by
`sort_values(['bitscore', 'qcovhsp'], ascending=False)` in
`print_blast_summary` (`blast_functions.py` line 289): descending
lexicographic order on (bitscore, qcovhsp). -/
def leBlast (a b : HitRecord) : Prop :=
  b.bitscore < a.bitscore ∨ (a.bitscore = b.bitscore ∧ b.qcovhsp ≤ a.qcovhsp)

instance : DecidableRel leBlast := fun _ _ =>
  inferInstanceAs (Decidable (_ ∨ _))

instance : IsTotal HitRecord leBlast where
  total a b := by
    unfold leBlast
    rcases lt_trichotomy a.bitscore b.bitscore with h | h | h
    · exact Or.inr (Or.inl h)
    · rcases le_total a.qcovhsp b.qcovhsp with h2 | h2
      · exact Or.inr (Or.inr ⟨h.symm, h2⟩)
      · exact Or.inl (Or.inr ⟨h, h2⟩)
    · exact Or.inl (Or.inl h)

instance : IsTrans HitRecord leBlast where
  trans a b c hab hbc := by
    unfold leBlast at *
    rcases hab with h1 | ⟨e1, q1⟩
    · rcases hbc with h2 | ⟨e2, q2⟩
      · exact Or.inl (h2.trans h1)
      · exact Or.inl (e2 ▸ h1)
    · rcases hbc with h2 | ⟨e2, q2⟩
      · exact Or.inl (e1 ▸ h2)
      · exact Or.inr ⟨e1.trans e2, q2.trans q1⟩

/-- `sort_values(['bitscore', 'qcovhsp'], ascending=False)`: a stable sort by
descending (bitscore, qcovhsp); ties keep original row order. -/
def sort_values (rows : List HitRecord) : List HitRecord :=
  rows.insertionSort leBlast

/-- `drop_duplicates(['qseqid', 'sseqid'])` with the default keep=first:
keeps the first row seen for each (qseqid, sseqid) pair. -/
def drop_duplicates : List HitRecord → List (String × Nat) → List HitRecord
  | [], _ => []
  | r :: rs, seen =>
    if hitKey r ∈ seen then drop_duplicates rs seen
    else r :: drop_duplicates rs (hitKey r :: seen)

/-- The order used by `.sort_index()`: ascending frame index. -/
def leIdx (a b : HitRecord) : Prop := a.idx ≤ b.idx

instance : DecidableRel leIdx := fun _ _ =>
  inferInstanceAs (Decidable (_ ≤ _))

instance : IsTotal HitRecord leIdx where
  total a b := Nat.le_total a.idx b.idx

instance : IsTrans HitRecord leIdx where
  trans _ _ _ hab hbc := Nat.le_trans hab hbc

/-- `.sort_index()`: restore ascending frame-index order. -/
def sort_index (rows : List HitRecord) : List HitRecord :=
  rows.insertionSort leIdx

/-- The deduplicated filtered hit table built in `print_blast_summary`
(`blast_functions.py` lines 287-292):
`blastout.query('sseqid in @keepsidx').sort_values(['bitscore', 'qcovhsp'],
ascending=False).drop_duplicates(['qseqid', 'sseqid']).sort_index()`. -/
def blastout_keeps (rows : List HitRecord) (keepsidx : List Nat) :
    List HitRecord :=
  sort_index
    (drop_duplicates
      (sort_values (rows.filter (fun r => r.sseqid ∈ keepsidx))) [])

/-- Filtering the rows kept for a pair out of `drop_duplicates` yields the
first surviving row for that pair. -/
theorem drop_duplicates_filter (p : String × Nat) :
    ∀ (l : List HitRecord) (seen : List (String × Nat)),
      (drop_duplicates l seen).filter (fun r => hitKey r = p) =
        if p ∈ seen then [] else (l.filter (fun r => hitKey r = p)).take 1
  | [], seen => by
    simp [drop_duplicates]
  | r :: rs, seen => by
    by_cases hseen : hitKey r ∈ seen
    · rw [drop_duplicates, if_pos hseen, drop_duplicates_filter p rs seen]
      by_cases hp : p ∈ seen
      · simp [hp]
      · have hne : ¬ (hitKey r = p) := fun h => hp (h ▸ hseen)
        simp [hp, List.filter_cons, hne]
    · rw [drop_duplicates, if_neg hseen]
      by_cases hkey : hitKey r = p
      · have hp : ¬ p ∈ seen := fun h => hseen (hkey ▸ h)
        rw [List.filter_cons_of_pos (by simp [hkey]),
          drop_duplicates_filter p rs (hitKey r :: seen),
          if_pos (by simp [hkey]), if_neg hp,
          List.filter_cons_of_pos (by simp [hkey])]
        simp
      · rw [List.filter_cons_of_neg (by simp [hkey]),
          drop_duplicates_filter p rs (hitKey r :: seen)]
        have hfc : List.filter (fun x => decide (hitKey x = p)) (r :: rs) =
            List.filter (fun x => decide (hitKey x = p)) rs := by
          simp [List.filter_cons, hkey]
        rw [hfc]
        by_cases hp : p ∈ seen
        · rw [if_pos (List.mem_cons_of_mem _ hp), if_pos hp]
        · rw [if_neg ?hnotin, if_neg hp]
          intro h
          rcases List.mem_cons.mp h with h | h
          · exact hkey h.symm
          · exact hp h

/-- In a list whose `idx` fields are strictly increasing, two members with
ordered indices occur in that order. -/
theorem pair_sublist_of_idx_lt :
    ∀ {l : List HitRecord},
      l.Pairwise (fun a b => a.idx < b.idx) →
      ∀ {a b : HitRecord}, a ∈ l → b ∈ l → a.idx < b.idx → [a, b] <+ l
  | [], _, _, _, ha, _, _ => absurd ha (List.not_mem_nil _)
  | x :: t, h, a, b, ha, hb, hab => by
    rcases List.pairwise_cons.mp h with ⟨hx, ht⟩
    rcases List.mem_cons.mp ha with ha1 | ha2
    · rcases List.mem_cons.mp hb with hb1 | hb2
      · exfalso
        rw [ha1, hb1] at hab
        exact lt_irrefl _ hab
      · rw [ha1]
        exact List.Sublist.cons₂ x (List.singleton_sublist.mpr hb2)
    · rcases List.mem_cons.mp hb with hb1 | hb2
      · exfalso
        rw [hb1] at hab
        exact lt_irrefl _ ((hx a ha2).trans hab)
      · exact List.Sublist.cons x (pair_sublist_of_idx_lt ht ha2 hb2 hab)

/-- Strictly increasing `idx` fields make the record list duplicate free. -/
theorem nodup_of_idx_lt {l : List HitRecord}
    (h : l.Pairwise (fun a b => a.idx < b.idx)) : l.Nodup :=
  h.imp fun hab heq => absurd (heq ▸ hab) (lt_irrefl _)

/-- Strictly increasing `idx` fields are injective on members. -/
theorem idx_ne_of_mem {l : List HitRecord}
    (h : l.Pairwise (fun a b => a.idx < b.idx)) {a b : HitRecord}
    (ha : a ∈ l) (hb : b ∈ l) (hne : a ≠ b) : a.idx ≠ b.idx := by
  have h' : l.Pairwise (fun a b => a.idx ≠ b.idx) :=
    h.imp fun hab => Nat.ne_of_lt hab
  exact h'.forall (fun _ _ hne => hne.symm) ha hb hne

/-- Restricting to kept genomes does not change the rows of a pair whose
genome is kept. -/
theorem filter_keeps_filter_key (rows : List HitRecord) (keepsidx : List Nat)
    (q : String) (g : Nat) (hg : g ∈ keepsidx) :
    (rows.filter (fun r => decide (r.sseqid ∈ keepsidx))).filter
        (fun r => decide (hitKey r = (q, g))) =
      rows.filter (fun r => decide (hitKey r = (q, g))) := by
  rw [List.filter_filter]
  congr 1
  funext a
  by_cases h : hitKey a = (q, g)
  · have hsse : a.sseqid = g := congrArg Prod.snd h
    simp [h, hsse, hg]
  · simp [h]

/-- C1: for every (query id, genome label) pair with at least one
threshold-passing hit among the kept genomes, the deduplicated filtered hit
table `blastout_keeps` contains exactly one row for that pair, and that row
is the one with the highest bit score, ties broken by highest query
coverage, remaining ties broken by lowest original row index (first seen,
stable sort). -/
theorem C1_dedup_correct (rows : List HitRecord) (keepsidx : List Nat)
    (q : String) (g : Nat)
    (hidx : rows.Pairwise (fun a b => a.idx < b.idx))
    (hg : g ∈ keepsidx)
    (hex : ∃ r ∈ rows, hitKey r = (q, g)) :
    (blastout_keeps rows keepsidx).countP
        (fun r => decide (hitKey r = (q, g))) = 1 ∧
    ∀ r ∈ blastout_keeps rows keepsidx, hitKey r = (q, g) →
      r ∈ rows ∧ ∀ r' ∈ rows, hitKey r' = (q, g) → r' ≠ r →
        (r'.bitscore < r.bitscore ∨
         (r'.bitscore = r.bitscore ∧ r'.qcovhsp < r.qcovhsp) ∨
         (r'.bitscore = r.bitscore ∧ r'.qcovhsp = r.qcovhsp ∧
          r.idx < r'.idx)) := by
  classical
  set keyB : HitRecord → Bool := fun r => decide (hitKey r = (q, g)) with hkeyB
  set fl : List HitRecord :=
    rows.filter (fun r => decide (r.sseqid ∈ keepsidx)) with hfl
  set s : List HitRecord := sort_values fl with hs
  set dd : List HitRecord := drop_duplicates s [] with hdd
  have hout : blastout_keeps rows keepsidx = sort_index dd := rfl
  have hfl_sub : fl <+ rows := List.filter_sublist _
  have hfl_pw : fl.Pairwise (fun a b => a.idx < b.idx) :=
    hidx.sublist hfl_sub
  have hperm : s ~ fl := List.perm_insertionSort leBlast fl
  have hsorted : List.Sorted leBlast s := List.sorted_insertionSort leBlast fl
  have hflkey : fl.filter keyB = rows.filter keyB :=
    filter_keeps_filter_key rows keepsidx q g hg
  -- the rows for the pair survive the genome filter, so the sorted list has
  -- at least one row for the pair
  obtain ⟨rwit, hrwit, hrwitkey⟩ := hex
  have hrwit_fl : rwit ∈ rows.filter keyB :=
    List.mem_filter.mpr ⟨hrwit, by simp [hkeyB, hrwitkey]⟩
  have hsf_perm : s.filter keyB ~ fl.filter keyB := hperm.filter keyB
  have hsf_ne : s.filter keyB ≠ [] := by
    intro hnil
    have hlen : (s.filter keyB).length = (fl.filter keyB).length :=
      hsf_perm.length_eq
    rw [hnil, hflkey] at hlen
    have hnil2 : rows.filter keyB = [] := List.length_eq_zero.mp hlen.symm
    rw [hnil2] at hrwit_fl
    exact absurd hrwit_fl (List.not_mem_nil _)
  obtain ⟨r0, rest, hsplit⟩ := List.exists_cons_of_ne_nil hsf_ne
  -- basic facts about the head of the per-pair sorted sublist
  have hr0_in_sf : r0 ∈ s.filter keyB := by rw [hsplit]; exact List.mem_cons_self _ _
  have hr0_in_s : r0 ∈ s := (List.mem_filter.mp hr0_in_sf).1
  have hr0_key : hitKey r0 = (q, g) := by
    have := (List.mem_filter.mp hr0_in_sf).2
    simpa [hkeyB] using this
  have hr0_in_fl : r0 ∈ fl := hperm.mem_iff.mp hr0_in_s
  have hr0_in_rows : r0 ∈ rows := hfl_sub.subset hr0_in_fl
  have hrows_nodup : rows.Nodup := nodup_of_idx_lt hidx
  have hfl_nodup : fl.Nodup := hrows_nodup.sublist hfl_sub
  have hs_nodup : s.Nodup := hperm.nodup_iff.mpr hfl_nodup
  have hsf_nodup : (s.filter keyB).Nodup := hs_nodup.filter _
  have hr0_not_rest : r0 ∉ rest := by
    rw [hsplit] at hsf_nodup
    exact (List.nodup_cons.mp hsf_nodup).1
  have hrest_le : ∀ r' ∈ rest, leBlast r0 r' := by
    have hsf_sorted : List.Sorted leBlast (s.filter keyB) := hsorted.filter _
    rw [hsplit] at hsf_sorted
    exact List.rel_of_sorted_cons hsf_sorted
  -- every record of the pair is either the head or strictly later in the
  -- sorted order
  have hmem_sf : ∀ r' ∈ rows, hitKey r' = (q, g) → r' ∈ s.filter keyB := by
    intro r' hr' hk
    have : r' ∈ rows.filter keyB := List.mem_filter.mpr ⟨hr', by simp [hkeyB, hk]⟩
    rw [← hflkey] at this
    exact hsf_perm.symm.mem_iff.mp this
  -- dominance of the head over any other record of the pair
  have hdom : ∀ r' ∈ rows, hitKey r' = (q, g) → r' ≠ r0 →
      (r'.bitscore < r0.bitscore ∨
       (r'.bitscore = r0.bitscore ∧ r'.qcovhsp < r0.qcovhsp) ∨
       (r'.bitscore = r0.bitscore ∧ r'.qcovhsp = r0.qcovhsp ∧
        r0.idx < r'.idx)) := by
    intro r' hr' hk hne
    have hr'_rest : r' ∈ rest := by
      have := hmem_sf r' hr' hk
      rw [hsplit] at this
      rcases List.mem_cons.mp this with h | h
      · exact absurd h hne
      · exact h
    have hle : leBlast r0 r' := hrest_le r' hr'_rest
    have hr'_fl : r' ∈ fl := hperm.mem_iff.mp (List.mem_filter.mp (hmem_sf r' hr' hk)).1
    rcases hle with hlt | ⟨hbe, hqle⟩
    · exact Or.inl hlt
    · rcases lt_or_eq_of_le hqle with hqlt | hqe
      · exact Or.inr (Or.inl ⟨hbe.symm, hqlt⟩)
      · -- full tie on both keys: stability forces the head to be first-seen
        refine Or.inr (Or.inr ⟨hbe.symm, hqe, ?_⟩)
        have hne_idx : r'.idx ≠ r0.idx :=
          idx_ne_of_mem hidx hr' hr0_in_rows hne
        rcases Nat.lt_or_ge r'.idx r0.idx with hcase | hcase
        · exfalso
          have hpair : [r', r0] <+ fl :=
            pair_sublist_of_idx_lt hfl_pw hr'_fl hr0_in_fl hcase
          have hle' : leBlast r' r0 := Or.inr ⟨hbe.symm, hqe.ge⟩
          have hpair_s : [r', r0] <+ s :=
            List.pair_sublist_insertionSort hle' hpair
          have hpair_sf : [r', r0] <+ s.filter keyB := by
            have := hpair_s.filter keyB
            rwa [show List.filter keyB [r', r0] = [r', r0] by
              simp [hkeyB, hk, hr0_key]] at this
          rw [hsplit] at hpair_sf
          cases hpair_sf with
          | cons _ h =>
            exact hr0_not_rest (h.subset (by simp))
          | cons₂ _ h =>
            exact hne rfl
        · exact lt_of_le_of_ne hcase (Ne.symm hne_idx)
  -- the deduplicated table has exactly the head row for the pair
  have hddf : dd.filter keyB = [r0] := by
    rw [hdd, drop_duplicates_filter (q, g) s []]
    have hcast : (s.filter (fun r => decide (hitKey r = (q, g)))) = s.filter keyB := rfl
    rw [if_neg (List.not_mem_nil _), hcast, hsplit]
    simp
  have hout_perm : sort_index dd ~ dd := List.perm_insertionSort leIdx dd
  constructor
  · rw [hout, hout_perm.countP_eq, List.countP_eq_length_filter, hddf]
    rfl
  · intro r hr hk
    have hr_dd : r ∈ dd := hout_perm.mem_iff.mp (by rwa [hout] at hr)
    have hr_r0 : r = r0 := by
      have : r ∈ dd.filter keyB := List.mem_filter.mpr ⟨hr_dd, by simp [hkeyB, hk]⟩
      rw [hddf] at this
      simpa using this
    subst hr_r0
    exact ⟨hr0_in_rows, hdom⟩

/-- The hit table of the C1 witness: three rows for the pair (gene1, 0)
with a bit score tie resolved by coverage, and one row for the dropped
genome 1. -/
def rowsC1 : List HitRecord :=
  [⟨0, "gene1", 0, "a0", 99, 100, 100, 200, 80, "t0", "ATG"⟩,
   ⟨1, "gene1", 0, "a1", 98, 100, 100, 200, 90, "t1", "ATG"⟩,
   ⟨2, "gene1", 0, "a2", 97, 100, 100, 100, 95, "t2", "ATG"⟩,
   ⟨3, "gene1", 1, "a3", 96, 100, 100, 300, 99, "t3", "ATG"⟩]

/-- C1 witness: on a concrete table with a bit score tie among the kept
genome 0, the deduplicated filtered table has exactly one row for the
pair (gene1, 0). -/
theorem C1_dedup_correct_witness :
    (blastout_keeps rowsC1 [0]).countP
      (fun r => decide (hitKey r = ("gene1", 0))) = 1 :=
  (C1_dedup_correct rowsC1 [0] "gene1" 0 (by decide) (by decide)
    ⟨⟨0, "gene1", 0, "a0", 99, 100, 100, 200, 80, "t0", "ATG"⟩,
      by decide, by decide⟩).1

/-! ### Presence matrix and keep policy (`print_blast_summary`) -/

/-- The genome-by-query hit count table produced by
`grouped.size().unstack('qseqid', fill_value=0)` in `print_blast_summary`.
A row pairs a genome identifier with one count per entry of `queries`;
`γ` is the genome identifier type (integer label or renamed basename). -/
structure PresenceMatrix (γ : Type) where
  queries : List String
  rows : List (γ × List Nat)

/-- The zero-count query names of one genome row
(`presence_matrix.apply(lambda x: x[x == 0].index.tolist(), axis=1)`). -/
def zero_counts_genome {γ : Type} (m : PresenceMatrix γ) (counts : List Nat) :
    List String :=
  ((m.queries.zip counts).filter (fun p => p.2 = 0)).map Prod.fst

/-- The number of queries missing from one genome row
(`nmissing = len(queries)` in the genome loop). -/
def nmissing {γ : Type} (m : PresenceMatrix γ) (counts : List Nat) : Nat :=
  (zero_counts_genome m counts).length

/-- The kept genome list built by `print_blast_summary`
(`blast_functions.py` lines 258-285): a genome with zero missing queries is
appended unconditionally; a genome with a nonzero missing count is appended
unless `nmissing > nallowed`. -/
def genome_keeps {γ : Type} (m : PresenceMatrix γ) (nallowed : Int) :
    List γ :=
  (m.rows.filter (fun r => nmissing m r.2 = 0)).map Prod.fst ++
    ((m.rows.filter (fun r => nmissing m r.2 ≠ 0)).filter
        (fun r => ¬ ((nmissing m r.2 : Int) > nallowed))).map Prod.fst

/-- The genomes for which the removal warning pair is logged
(`Genome ... is going to be removed due to missing queries.`). -/
def genome_drop_warnings {γ : Type} (m : PresenceMatrix γ) (nallowed : Int) :
    List γ :=
  ((m.rows.filter (fun r => nmissing m r.2 ≠ 0)).filter
      (fun r => (nmissing m r.2 : Int) > nallowed)).map Prod.fst

/-- `summary['genomes']['names']`: the matrix row index. -/
def summary_genome_names {γ : Type} (m : PresenceMatrix γ) : List γ :=
  m.rows.map Prod.fst

/-- `summary['genomes']['count']`: the number of matrix rows. -/
def summary_genomes_count {γ : Type} (m : PresenceMatrix γ) : Nat :=
  m.rows.length

/-- `summary['queries']['count']`: the number of matrix columns. -/
def summary_queries_count {γ : Type} (m : PresenceMatrix γ) : Nat :=
  m.queries.length

/-- A member of a duplicate-free-projection list is determined by its first
component. -/
theorem eq_of_mem_of_map_fst_nodup {γ : Type} {l : List (γ × List Nat)}
    (hnd : (l.map Prod.fst).Nodup) {a b : γ × List Nat}
    (ha : a ∈ l) (hb : b ∈ l) (hfst : a.1 = b.1) : a = b :=
  List.inj_on_of_nodup_map hnd ha hb hfst

/-- C2: a genome row of the presence matrix with zero missing queries is
always kept; a genome row with a nonzero missing count is kept exactly when
its missing count is at most the allow-missing threshold. -/
theorem C2_keep_policy {γ : Type} [DecidableEq γ] (m : PresenceMatrix γ)
    (nallowed : Int) (hnd : (m.rows.map Prod.fst).Nodup)
    (g : γ) (counts : List Nat) (hmem : (g, counts) ∈ m.rows) :
    (nmissing m counts = 0 → g ∈ genome_keeps m nallowed) ∧
    (nmissing m counts ≠ 0 →
      (g ∈ genome_keeps m nallowed ↔ (nmissing m counts : Int) ≤ nallowed)) := by
  constructor
  · intro h0
    apply List.mem_append_left
    exact List.mem_map.mpr
      ⟨(g, counts), List.mem_filter.mpr ⟨hmem, by simp [h0]⟩, rfl⟩
  · intro hne
    constructor
    · intro hkeep
      rcases List.mem_append.mp hkeep with hk | hk
      · rcases List.mem_map.mp hk with ⟨r, hrf, hrg⟩
        have hr := List.mem_filter.mp hrf
        have : r = (g, counts) :=
          eq_of_mem_of_map_fst_nodup hnd hr.1 hmem hrg
        rw [this] at hr
        have : nmissing m counts = 0 := by simpa using hr.2
        exact absurd this hne
      · rcases List.mem_map.mp hk with ⟨r, hrf, hrg⟩
        have hr := List.mem_filter.mp hrf
        have hr2 := List.mem_filter.mp hr.1
        have heq : r = (g, counts) :=
          eq_of_mem_of_map_fst_nodup hnd hr2.1 hmem hrg
        have hle : ¬ ((nmissing m r.2 : Int) > nallowed) := by
          simpa using hr.2
        rw [heq] at hle
        exact not_lt.mp hle
    · intro hle
      apply List.mem_append_right
      refine List.mem_map.mpr ⟨(g, counts), ?_, rfl⟩
      refine List.mem_filter.mpr ⟨List.mem_filter.mpr ⟨hmem, by simp [hne]⟩, ?_⟩
      simp only [decide_eq_true_eq, not_lt]
      exact hle

/-- C2 witness: with the allow-missing threshold 1, a genome missing no
query and a genome missing exactly one query are kept, and a genome missing
two queries is dropped. -/
theorem C2_keep_policy_witness :
    ("g1" ∈ genome_keeps ⟨["q1", "q2"],
        [("g1", [2, 1]), ("g2", [1, 0]), ("g3", [0, 0])]⟩ 1) ∧
    ("g2" ∈ genome_keeps ⟨["q1", "q2"],
        [("g1", [2, 1]), ("g2", [1, 0]), ("g3", [0, 0])]⟩ 1) ∧
    ("g3" ∉ genome_keeps ⟨["q1", "q2"],
        [("g1", [2, 1]), ("g2", [1, 0]), ("g3", [0, 0])]⟩ 1) := by
  have h1 := C2_keep_policy (γ := String)
    ⟨["q1", "q2"], [("g1", [2, 1]), ("g2", [1, 0]), ("g3", [0, 0])]⟩ 1
    (by decide) "g1" [2, 1] (by decide)
  have h2 := C2_keep_policy (γ := String)
    ⟨["q1", "q2"], [("g1", [2, 1]), ("g2", [1, 0]), ("g3", [0, 0])]⟩ 1
    (by decide) "g2" [1, 0] (by decide)
  have h3 := C2_keep_policy (γ := String)
    ⟨["q1", "q2"], [("g1", [2, 1]), ("g2", [1, 0]), ("g3", [0, 0])]⟩ 1
    (by decide) "g3" [0, 0] (by decide)
  refine ⟨h1.1 (by decide), (h2.2 (by decide)).mpr (by decide), ?_⟩
  intro hmem
  have := (h3.2 (by decide)).mp hmem
  revert this
  decide

/-! ### Per-query missing statistics (`print_blast_summary`, query loop) -/

/-- `PERCENT_CUTOFF = 50.0` (`blast_functions.py` line 30). -/
def PERCENT_CUTOFF : Rat := 50

/-- The genomes with a zero count in column `j`
(`presence_matrix.apply(lambda x: x[x == 0].index.tolist(), axis=0)`).
Rows are assumed aligned with the column list; the `getD` default 1 is
never used on a well-formed matrix. -/
def zero_counts_query {γ : Type} (m : PresenceMatrix γ) (j : Nat) : List γ :=
  (m.rows.filter (fun r => r.2.getD j 1 = 0)).map Prod.fst

/-- Rounding to two decimal places, returned as a count of hundredths.
Models the CPython fixed-point format of the percent value, which rounds
half to even; floats are modelled as exact rationals. -/
def format2f (x : Rat) : Int :=
  if (1 : Rat) / 2 < x * 100 - ⌊x * 100⌋ then ⌊x * 100⌋ + 1
  else if x * 100 - ⌊x * 100⌋ < (1 : Rat) / 2 then ⌊x * 100⌋
  else if ⌊x * 100⌋ % 2 = 0 then ⌊x * 100⌋ else ⌊x * 100⌋ + 1

/-- The unrounded percent for column `j`:
`percent = ngenomes / summary['genomes']['count'] * 100`. -/
def query_percent {γ : Type} (m : PresenceMatrix γ) (j : Nat) : Rat :=
  ((zero_counts_query m j).length : Rat) / (summary_genomes_count m : Rat) * 100

/-- One entry of `summary['queries']['missing']`. -/
structure QueryMissing (γ : Type) where
  genomes : List γ
  count : Nat
  percent : Int
deriving DecidableEq

/-- `summary['queries']['missing']`: one entry per matrix column, with the
missing genome list, its size, and the percent formatted to two decimals
(stored as hundredths). -/
def queries_missing {γ : Type} (m : PresenceMatrix γ) :
    List (String × QueryMissing γ) :=
  m.queries.enum.map (fun jq =>
    (jq.2, ⟨zero_counts_query m jq.1, (zero_counts_query m jq.1).length,
      format2f (query_percent m jq.1)⟩))

/-- The removal candidate map: queries whose unrounded percent exceeds
`PERCENT_CUTOFF`. -/
def removal_candidates {γ : Type} (m : PresenceMatrix γ) : List String :=
  (m.queries.enum.filter
      (fun jq => decide (query_percent m jq.1 > PERCENT_CUTOFF))).map Prod.snd

/-- C7: for the query in column `j`, the missing-genome set is the set of
rows with a zero count in that column, the reported entry stores the percent
missing-count / genome-count x 100 rounded to two decimals, and the query is
a removal candidate exactly when the unrounded percent exceeds 50. -/
theorem C7_percent_missing {γ : Type} [DecidableEq γ] (m : PresenceMatrix γ)
    (j : Nat) (q : String) (hq : m.queries[j]? = some q)
    (hqnd : m.queries.Nodup) (hnd : (m.rows.map Prod.fst).Nodup) :
    (queries_missing m)[j]? = some (q,
      ⟨zero_counts_query m j, (zero_counts_query m j).length,
        format2f (((zero_counts_query m j).length : Rat) /
          (summary_genomes_count m : Rat) * 100)⟩) ∧
    (q ∈ removal_candidates m ↔
      ((zero_counts_query m j).length : Rat) /
        (summary_genomes_count m : Rat) * 100 > 50) ∧
    (∀ g counts, (g, counts) ∈ m.rows →
      (g ∈ zero_counts_query m j ↔ counts.getD j 1 = 0)) := by
  refine ⟨?_, ?_, ?_⟩
  · simp [queries_missing, hq, query_percent]
  · constructor
    · intro hc
      rcases List.mem_map.mp hc with ⟨⟨i, x⟩, hjq, hsnd⟩
      simp only at hsnd
      subst hsnd
      have hjq' := List.mem_filter.mp hjq
      have hidx : m.queries[i]? = some x :=
        List.mk_mem_enum_iff_getElem?.mp hjq'.1
      have hlt : i < m.queries.length :=
        (List.getElem?_eq_some.mp hidx).1
      have hij : i = j :=
        List.getElem?_inj hlt hqnd (by rw [hidx, hq])
      have hpred := hjq'.2
      rw [hij] at hpred
      have := of_decide_eq_true hpred
      simpa [query_percent, PERCENT_CUTOFF] using this
    · intro hgt
      apply List.mem_map.mpr
      refine ⟨(j, q), List.mem_filter.mpr ⟨?_, ?_⟩, rfl⟩
      · exact List.mk_mem_enum_iff_getElem?.mpr hq
      · simpa [query_percent, PERCENT_CUTOFF] using hgt
  · intro g counts hmem
    constructor
    · intro hz
      rcases List.mem_map.mp hz with ⟨r, hrf, hrg⟩
      have hr := List.mem_filter.mp hrf
      have : r = (g, counts) := eq_of_mem_of_map_fst_nodup hnd hr.1 hmem hrg
      rw [this] at hr
      simpa using hr.2
    · intro hz
      exact List.mem_map.mpr
        ⟨(g, counts), List.mem_filter.mpr ⟨hmem, by simpa using hz⟩, rfl⟩

/-- A four genome, two query matrix: query q1 is missing from one genome of
four, query q2 from three of four. -/
def exampleMatrix4 : PresenceMatrix String :=
  ⟨["q1", "q2"],
    [("g1", [1, 0]), ("g2", [2, 0]), ("g3", [1, 0]), ("g4", [0, 1])]⟩

/-- C7 witness: with four genomes and one missing, the reported percent is
25.00 (2500 hundredths) and the query is not a removal candidate; a query
missing from three of four genomes is a removal candidate. -/
theorem C7_percent_missing_witness :
    (queries_missing exampleMatrix4)[0]? =
      some ("q1", ⟨["g4"], 1, 2500⟩) ∧
    "q1" ∉ removal_candidates exampleMatrix4 ∧
    "q2" ∈ removal_candidates exampleMatrix4 := by
  have h1 := C7_percent_missing exampleMatrix4 0 "q1"
    (by decide) (by decide) (by decide)
  have h2 := C7_percent_missing exampleMatrix4 1 "q2"
    (by decide) (by decide) (by decide)
  have e1 : zero_counts_query exampleMatrix4 0 = ["g4"] := rfl
  have e2 : summary_genomes_count exampleMatrix4 = 4 := rfl
  refine ⟨?_, ?_, ?_⟩
  · rw [h1.1, e1, e2]
    have : format2f ((((["g4"] : List String).length : Rat)) / ((4 : Nat) : Rat)
        * 100) = 2500 := by
      norm_num [format2f]
    rw [this]
    decide
  · intro hc
    have := h1.2.1.mp hc
    rw [e1, e2] at this
    norm_num at this
  · apply h2.2.1.mpr
    have e3 : zero_counts_query exampleMatrix4 1 = ["g1", "g2", "g3"] := rfl
    rw [e3, e2]
    norm_num

/-! ### Numeric validation (`validate_arguments`, `configuration.py`) -/

/-- The validation error categories raised by the numeric checks of
`validate_arguments` (`configuration.py` lines 239-250); each ends the
program with exit code 78. -/
inductive ValidationError where
  | evalue
  | coverage
deriving DecidableEq

/-- The numeric threshold checks of `validate_arguments`
(`configuration.py` lines 239-250): e-value must not exceed 10 and coverage
must lie in `range(0, 100)`.  The reconciled `allow_missing` value is passed
but never inspected: no check on it exists anywhere in the source. -/
def validate_numeric_checks (evalue : Rat) (coverage : Int)
    (allow_missing : Int) : Option ValidationError :=
  if evalue > 10 then some ValidationError.evalue
  else if ¬ (0 ≤ coverage ∧ coverage < 100) then some ValidationError.coverage
  else none

/-- The missing count of a genome row never exceeds the column count. -/
theorem nmissing_le_queries {γ : Type} (m : PresenceMatrix γ)
    (counts : List Nat) : nmissing m counts ≤ m.queries.length := by
  unfold nmissing zero_counts_genome
  calc (((m.queries.zip counts).filter (fun p => p.2 = 0)).map Prod.fst).length
      = ((m.queries.zip counts).filter (fun p => p.2 = 0)).length :=
        List.length_map _ _
    _ ≤ (m.queries.zip counts).length := List.length_filter_le _ _
    _ ≤ m.queries.length := by
        rw [List.length_zip]
        exact Nat.min_le_left _ _

/-- C9 counterexample: a negative allow-missing value passes every
validation check (the run does not fail before filtering), and filtering
then simply drops each genome that misses at least one query. -/
theorem C9_counterexample :
    validate_numeric_checks (1 / 100000) 50 (-1) = none ∧
    "g2" ∉ genome_keeps
      (⟨["q1", "q2"], [("g1", [1, 1]), ("g2", [1, 0])]⟩ : PresenceMatrix String)
      (-1) := by
  constructor
  · have h1 : ¬ ((1 : Rat) / 100000 > 10) := by norm_num
    rw [validate_numeric_checks, if_neg h1, if_neg (by norm_num)]
  · decide

/-- C9 amended: the numeric validation never rejects any allow-missing
value (negative values included: the checks cover only e-value and
coverage), and an allow-missing threshold at least the query count keeps
every genome of the presence matrix. -/
theorem C9_allow_missing_policy {γ : Type} [DecidableEq γ]
    (m : PresenceMatrix γ) (evalue : Rat) (coverage : Int) (a b : Int) :
    validate_numeric_checks evalue coverage a =
      validate_numeric_checks evalue coverage b ∧
    ((m.queries.length : Int) ≤ a →
      ∀ g counts, (g, counts) ∈ m.rows → g ∈ genome_keeps m a) := by
  constructor
  · rfl
  · intro ha g counts hmem
    have hle : ((nmissing m counts : Int)) ≤ a := by
      calc ((nmissing m counts : Int)) ≤ (m.queries.length : Int) := by
            exact_mod_cast nmissing_le_queries m counts
        _ ≤ a := ha
    by_cases h0 : nmissing m counts = 0
    · apply List.mem_append_left
      exact List.mem_map.mpr
        ⟨(g, counts), List.mem_filter.mpr ⟨hmem, by simp [h0]⟩, rfl⟩
    · apply List.mem_append_right
      refine List.mem_map.mpr ⟨(g, counts), ?_, rfl⟩
      refine List.mem_filter.mpr
        ⟨List.mem_filter.mpr ⟨hmem, by simp [h0]⟩, ?_⟩
      simp only [decide_eq_true_eq, not_lt]
      exact hle

/-- C9 witness: with two queries and allow-missing 2, even a genome missing
both queries is kept. -/
theorem C9_allow_missing_policy_witness :
    "g2" ∈ genome_keeps
      (⟨["q1", "q2"], [("g1", [1, 1]), ("g2", [0, 0])]⟩ : PresenceMatrix String)
      2 :=
  (C9_allow_missing_policy
    (⟨["q1", "q2"], [("g1", [1, 1]), ("g2", [0, 0])]⟩ : PresenceMatrix String)
    1 50 2 2).2 (by decide) "g2" [0, 0] (by decide)

/-! ### Label persistence (`get_labels`, `configuration.py`) -/

/-- `get_labels` (`configuration.py` lines 371-392): each basename of the
current run that is not yet in the persisted label list is appended at the
end; existing entries are never moved or removed. -/
def get_labels (labels : List String) (bases : List String) : List String :=
  bases.foldl (fun ls b => if b ∈ ls then ls else ls ++ [b]) labels

/-- The label list evolved over a sequence of runs, each contributing the
basename list of its genome inputs. -/
def get_labels_runs (labels : List String) (runs : List (List String)) :
    List String :=
  runs.foldl get_labels labels

/-- One run only appends to the label list. -/
theorem get_labels_eq_append (bases : List String) :
    ∀ ls, ∃ t, get_labels ls bases = ls ++ t := by
  induction bases with
  | nil =>
    intro ls
    exact ⟨[], by simp [get_labels]⟩
  | cons b bs ih =>
    intro ls
    simp only [get_labels, List.foldl_cons]
    by_cases hb : b ∈ ls
    · rw [if_pos hb]
      obtain ⟨t, ht⟩ := ih ls
      exact ⟨t, by simpa [get_labels] using ht⟩
    · rw [if_neg hb]
      obtain ⟨t, ht⟩ := ih (ls ++ [b])
      refine ⟨[b] ++ t, ?_⟩
      simp only [get_labels] at ht
      rw [ht, List.append_assoc]

/-- A sequence of runs only appends to the label list. -/
theorem get_labels_runs_eq_append (runs : List (List String)) :
    ∀ labels, ∃ t, get_labels_runs labels runs = labels ++ t := by
  induction runs with
  | nil =>
    intro labels
    exact ⟨[], by simp [get_labels_runs]⟩
  | cons r rs ih =>
    intro labels
    obtain ⟨t1, h1⟩ := get_labels_eq_append r labels
    obtain ⟨t2, h2⟩ := ih (get_labels labels r)
    refine ⟨t1 ++ t2, ?_⟩
    simp only [get_labels_runs, List.foldl_cons] at h2 ⊢
    rw [h2, h1, List.append_assoc]

/-- Entries of the new label list come from the old list or the run. -/
theorem mem_of_mem_get_labels (bases : List String) :
    ∀ ls b, b ∈ get_labels ls bases → b ∈ ls ∨ b ∈ bases := by
  induction bases with
  | nil =>
    intro ls b h
    left
    simpa [get_labels] using h
  | cons x bs ih =>
    intro ls b h
    simp only [get_labels, List.foldl_cons] at h
    by_cases hx : x ∈ ls
    · rw [if_pos hx] at h
      rcases ih ls b (by simpa [get_labels] using h) with h1 | h1
      · exact Or.inl h1
      · exact Or.inr (List.mem_cons_of_mem _ h1)
    · rw [if_neg hx] at h
      rcases ih (ls ++ [x]) b (by simpa [get_labels] using h) with h1 | h1
      · rcases List.mem_append.mp h1 with h2 | h2
        · exact Or.inl h2
        · right
          have : b = x := by simpa using h2
          rw [this]
          exact List.mem_cons_self _ _
      · exact Or.inr (List.mem_cons_of_mem _ h1)

/-- Entries after a sequence of runs come from the start list or a run. -/
theorem mem_of_mem_get_labels_runs (runs : List (List String)) :
    ∀ labels b, b ∈ get_labels_runs labels runs →
      b ∈ labels ∨ ∃ run ∈ runs, b ∈ run := by
  induction runs with
  | nil =>
    intro labels b h
    left
    simpa [get_labels_runs] using h
  | cons r rs ih =>
    intro labels b h
    simp only [get_labels_runs, List.foldl_cons] at h
    rcases ih (get_labels labels r) b (by simpa [get_labels_runs] using h)
      with h1 | h1
    · rcases mem_of_mem_get_labels r labels b h1 with h2 | h2
      · exact Or.inl h2
      · exact Or.inr ⟨r, List.mem_cons_self _ _, h2⟩
    · obtain ⟨run, hr, hb⟩ := h1
      exact Or.inr ⟨run, List.mem_cons_of_mem _ hr, hb⟩

/-- C8: across any sequence of runs the persisted label list only grows by
appending basenames taken from the runs, and the index of an identifier
already present never changes, even if the corresponding genome no longer
appears in later runs. -/
theorem C8_label_stability (labels : List String) (runs : List (List String)) :
    (∃ t, get_labels_runs labels runs = labels ++ t) ∧
    (∀ id ∈ labels,
      (get_labels_runs labels runs).indexOf id = labels.indexOf id) ∧
    (∀ b ∈ get_labels_runs labels runs,
      b ∈ labels ∨ ∃ run ∈ runs, b ∈ run) := by
  obtain ⟨t, ht⟩ := get_labels_runs_eq_append runs labels
  refine ⟨⟨t, ht⟩, ?_, ?_⟩
  · intro id hid
    rw [ht]
    exact List.indexOf_append_of_mem hid
  · intro b hb
    exact mem_of_mem_get_labels_runs runs labels b hb

/-- C8 witness: after two further runs, one of which drops `b.fna` and adds
`c.fna`, the index of `b.fna` is unchanged. -/
theorem C8_label_stability_witness :
    "b.fna" ∈ (["a.fna", "b.fna"] : List String) ∧
    (get_labels_runs ["a.fna", "b.fna"]
        [["c.fna", "a.fna"], ["c.fna"]]).indexOf "b.fna" =
      (["a.fna", "b.fna"] : List String).indexOf "b.fna" :=
  ⟨by decide,
    (C8_label_stability ["a.fna", "b.fna"]
      [["c.fna", "a.fna"], ["c.fna"]]).2.1 "b.fna" (by decide)⟩

/-! ### Query ingestion identity rules (`get_queries`, `formatting.py`) -/

/-- Character filter of `sanitize_path` (`helper_functions.py` lines
129-135): spaces become underscores, then only alphanumeric characters and
`._-` are kept.  Python str.isalnum is modelled by `Char.isAlphanum`. -/
def sanitize_chars : List Char → List Char
  | [] => []
  | c :: cs =>
    if (if c = ' ' then '_' else c).isAlphanum ∨
        (if c = ' ' then '_' else c) = '.' ∨
        (if c = ' ' then '_' else c) = '_' ∨
        (if c = ' ' then '_' else c) = '-' then
      (if c = ' ' then '_' else c) :: sanitize_chars cs
    else sanitize_chars cs

/-- `sanitize_path` applied to a record identifier. -/
def sanitize_path (s : String) : String := ⟨sanitize_chars s.data⟩

/-- One FASTA record of a query input: the raw header identifier and the
content hash of its sequence (the blake2b digest is modelled by the digest
string itself). -/
structure QueryRec where
  recid : String
  seqhash : String
deriving DecidableEq

/-- The loop state of `get_queries`: `hashes` maps each content hash to the
first sanitized identifier seen with it, `seen` records the identifiers
seen so far, `new_queries` the produced per-query file names. -/
structure QState where
  hashes : List (String × String)
  seen : List String
  new_queries : List String
deriving DecidableEq

/-- Outcome of one record: continue with a state, or abort with an exit
code (`end_program(65)`). -/
inductive QResult where
  | ok : QState → QResult
  | err : Int → QResult
deriving DecidableEq

/-- One iteration of the record loop of `get_queries` (`formatting.py`
lines 162-265): a hash seen before with the same sanitized id is silently
skipped; a hash seen before with a different id aborts; otherwise the hash
is recorded, and a repeated id aborts unless `dups` is set, in which case
the record is kept as a distinct entry named `safeid + '_' + seqhash`. -/
def get_queries_step (dups : Bool) (st : QState) (r : QueryRec) : QResult :=
  match st.hashes.lookup r.seqhash with
  | some id =>
    if id = sanitize_path r.recid then QResult.ok st else QResult.err 65
  | none =>
    if sanitize_path r.recid ∈ st.seen ∧ dups = false then QResult.err 65
    else QResult.ok
      { hashes := st.hashes ++ [(r.seqhash, sanitize_path r.recid)],
        seen :=
          if sanitize_path r.recid ∈ st.seen then st.seen
          else st.seen ++ [sanitize_path r.recid],
        new_queries := st.new_queries ++
          [sanitize_path r.recid ++ "_" ++ r.seqhash ++ ".fas"] }

/-- C5: a record whose hash was already seen with the same sanitized id is
skipped with the state unchanged; a hash seen with a different id is a
fatal error regardless of the duplicates flag; a fresh hash with an already
seen id is fatal without the duplicates flag, and with it the record is
retained as a distinct entry keyed additionally by its hash. -/
theorem C5_query_identity (dups : Bool) (st : QState) (r : QueryRec) :
    (st.hashes.lookup r.seqhash = some (sanitize_path r.recid) →
      get_queries_step dups st r = QResult.ok st) ∧
    (∀ id, st.hashes.lookup r.seqhash = some id →
      id ≠ sanitize_path r.recid →
      get_queries_step dups st r = QResult.err 65) ∧
    (st.hashes.lookup r.seqhash = none → sanitize_path r.recid ∈ st.seen →
      (dups = false → get_queries_step dups st r = QResult.err 65) ∧
      (dups = true → get_queries_step dups st r = QResult.ok
        { hashes := st.hashes ++ [(r.seqhash, sanitize_path r.recid)],
          seen := st.seen,
          new_queries := st.new_queries ++
            [sanitize_path r.recid ++ "_" ++ r.seqhash ++ ".fas"] })) := by
  refine ⟨?_, ?_, ?_⟩
  · intro h
    simp [get_queries_step, h]
  · intro id h hne
    simp [get_queries_step, h, hne]
  · intro h hseen
    constructor
    · intro hd
      simp [get_queries_step, h, hseen, hd]
    · intro hd
      simp [get_queries_step, h, hseen, hd]

/-- C5 witness: a repeated (hash, id) record is skipped, and with the
duplicates flag a repeated id with a fresh hash is kept as a second entry
keyed by its hash. -/
theorem C5_query_identity_witness :
    get_queries_step false
      ⟨[("h1", "gene1")], ["gene1"], ["gene1_h1.fas"]⟩ ⟨"gene1", "h1"⟩ =
      QResult.ok ⟨[("h1", "gene1")], ["gene1"], ["gene1_h1.fas"]⟩ ∧
    get_queries_step true
      ⟨[("h1", "gene1")], ["gene1"], ["gene1_h1.fas"]⟩ ⟨"gene1", "h2"⟩ =
      QResult.ok ⟨[("h1", "gene1"), ("h2", "gene1")], ["gene1"],
        ["gene1_h1.fas", "gene1_h2.fas"]⟩ ∧
    get_queries_step false
      ⟨[("h1", "gene1")], ["gene1"], ["gene1_h1.fas"]⟩ ⟨"gene1", "h2"⟩ =
      QResult.err 65 ∧
    get_queries_step true
      ⟨[("h1", "gene1")], ["gene1"], ["gene1_h1.fas"]⟩ ⟨"gene2", "h1"⟩ =
      QResult.err 65 := by
  refine ⟨?_, ?_, ?_, ?_⟩
  · exact (C5_query_identity false
      ⟨[("h1", "gene1")], ["gene1"], ["gene1_h1.fas"]⟩ ⟨"gene1", "h1"⟩).1
      (by decide)
  · exact ((C5_query_identity true
      ⟨[("h1", "gene1")], ["gene1"], ["gene1_h1.fas"]⟩ ⟨"gene1", "h2"⟩).2.2
      (by decide) (by decide)).2 rfl
  · exact ((C5_query_identity false
      ⟨[("h1", "gene1")], ["gene1"], ["gene1_h1.fas"]⟩ ⟨"gene1", "h2"⟩).2.2
      (by decide) (by decide)).1 rfl
  · exact (C5_query_identity true
      ⟨[("h1", "gene1")], ["gene1"], ["gene1_h1.fas"]⟩ ⟨"gene2", "h1"⟩).2.1
      "gene1" (by decide) (by decide)

/-! ### Invalidation coordinator (`remove_intermediates`,
`helper_functions.py` lines 43-73) -/

/-- The run directory artifacts touched (or not) by `remove_intermediates`.
Boolean fields record existence of the named artifact; `blast_search_caches`
lists the per-search `blast/*.tab` hit cache files (never touched by this
function); `nexus_files` lists the files matching the glob
`runid + '.nex*'`; `backup_files` the content of the backup directory. -/
structure RunDirState where
  unaligned_dir : Bool
  aligned_dir : Bool
  blast_results_tsv : Bool
  keepsidx_json : Bool
  single_copy_json : Bool
  blast_filtered_tsv : Bool
  expected_filt_json : Bool
  blast_search_caches : List String
  nexus_files : List String
  backup_files : List String
deriving DecidableEq

/-- Outcome of `remove_intermediates`: either the run halts via
`end_program` with an exit code and a final log message, or it continues;
both carry the resulting file state. -/
inductive RIResult where
  | halted : RunDirState → Int → String → RIResult
  | ok : RunDirState → RIResult
deriving DecidableEq

/-- The operator instruction logged before halting under the protect flag
(`helper_functions.py` lines 48-52). -/
def protect_msg : String :=
  "Delete the \"protect\" flag in the config.json file or restart " ++
  "your analysis with another runid to continue."

/-- `remove_intermediates` (`helper_functions.py` lines 43-73): under the
protect flag the function logs the instruction and halts with exit code 1
before touching any file.  Otherwise, for the genome scope it removes the
unaligned and aligned directories and the five genome bookkeeping files;
in every scope it then moves the `runid.nex*` files to the backup
directory.  No branch removes the per-search hit caches. -/
def remove_intermediates (intermediates : List String) (protect : Bool)
    (fs : RunDirState) : RIResult :=
  if protect then RIResult.halted fs 1 protect_msg
  else
    RIResult.ok
      { unaligned_dir :=
          if "genome" ∈ intermediates then false else fs.unaligned_dir,
        aligned_dir :=
          if "genome" ∈ intermediates then false else fs.aligned_dir,
        blast_results_tsv :=
          if "genome" ∈ intermediates then false else fs.blast_results_tsv,
        keepsidx_json :=
          if "genome" ∈ intermediates then false else fs.keepsidx_json,
        single_copy_json :=
          if "genome" ∈ intermediates then false else fs.single_copy_json,
        blast_filtered_tsv :=
          if "genome" ∈ intermediates then false else fs.blast_filtered_tsv,
        expected_filt_json :=
          if "genome" ∈ intermediates then false else fs.expected_filt_json,
        blast_search_caches := fs.blast_search_caches,
        nexus_files := [],
        backup_files := fs.backup_files ++ fs.nexus_files }

/-- The scope selection of `get_queries` (`formatting.py` lines 278-288):
when the produced query file set changed, the scope is query-only if every
previously expected file is still present (queries were only added), and
query plus genome otherwise; an unchanged set triggers no purge. -/
def get_queries_invalidate (expected new_queries : List String) :
    Option (List String) :=
  if expected ⊆ new_queries ∧ new_queries ⊆ expected then none
  else if expected ⊆ new_queries then some ["query"]
  else some ["query", "genome"]

/-- C6: whenever the protect flag is set, `remove_intermediates` deletes
and moves nothing, whatever artifact classes it was asked to purge: it
halts with exit code 1, the file state unchanged, after logging the
instruction to unset the flag or restart under another run id. -/
theorem C6_protect_halts (intermediates : List String) (fs : RunDirState) :
    remove_intermediates intermediates true fs =
      RIResult.halted fs 1 protect_msg := rfl

/-- C3 counterexample: a query-scope purge leaves the per-search hit cache
in place (nothing tied to queries is deleted), so the claim that the
search-result caches are removed fails. -/
theorem C3_counterexample :
    remove_intermediates ["query"] false
      ⟨true, true, true, true, true, true, true,
        ["blast/gene1_h1_vs_g1.fna.tab"], [], []⟩ =
    RIResult.ok
      ⟨true, true, true, true, true, true, true,
        ["blast/gene1_h1_vs_g1.fna.tab"], [], []⟩ := by
  decide

/-- C3 amended: when queries are only added, the selected scope is
query-only, and a query-scope purge deletes nothing at all: the per-search
hit caches and every genome-level artifact (kept-genome index, filtered hit
table, combined results cache, alignment directories) are left untouched;
the only effect is the archiving of the `runid.nex*` tree files to the
backup directory, which happens for every scope. -/
theorem C3_query_scope_noop (expected new_queries : List String)
    (fs : RunDirState) (hsub : expected ⊆ new_queries)
    (hne : ¬ new_queries ⊆ expected) :
    get_queries_invalidate expected new_queries = some ["query"] ∧
    remove_intermediates ["query"] false fs =
      RIResult.ok
        { unaligned_dir := fs.unaligned_dir,
          aligned_dir := fs.aligned_dir,
          blast_results_tsv := fs.blast_results_tsv,
          keepsidx_json := fs.keepsidx_json,
          single_copy_json := fs.single_copy_json,
          blast_filtered_tsv := fs.blast_filtered_tsv,
          expected_filt_json := fs.expected_filt_json,
          blast_search_caches := fs.blast_search_caches,
          nexus_files := [],
          backup_files := fs.backup_files ++ fs.nexus_files } := by
  constructor
  · rw [get_queries_invalidate, if_neg (by simp [hne]), if_pos hsub]
  · simp [remove_intermediates]

/-- C3 witness: adding one query file keeps the previous caches: the
per-search cache and the combined results cache survive the purge. -/
theorem C3_query_scope_noop_witness :
    get_queries_invalidate ["queries/gene1_h1.fas"]
      ["queries/gene1_h1.fas", "queries/gene2_h2.fas"] = some ["query"] ∧
    remove_intermediates ["query"] false
      ⟨true, true, true, true, true, true, true,
        ["blast/gene1_h1_vs_g1.fna.tab"], ["run1.nex"], []⟩ =
      RIResult.ok ⟨true, true, true, true, true, true, true,
        ["blast/gene1_h1_vs_g1.fna.tab"], [], ["run1.nex"]⟩ := by
  have h := C3_query_scope_noop ["queries/gene1_h1.fas"]
    ["queries/gene1_h1.fas", "queries/gene2_h2.fas"]
    ⟨true, true, true, true, true, true, true,
      ["blast/gene1_h1_vs_g1.fna.tab"], ["run1.nex"], []⟩
    (by decide) (by decide)
  exact ⟨h.1, h.2⟩

/-! ### External-stage rerun conditions (`generate_blast_list`,
`blast_functions.py`; `run_mafft`, `mafft.py`) -/

/-- File system abstraction: a path maps to `none` when absent, otherwise
to its size in bytes (`os.path.exists` / `os.path.getsize`). -/
def FileSys : Type := String → Option Nat

/-- The output path of one search unit:
`'{}_vs_{}.tab'.format(query_base, target_base)` inside the blast
directory (`blast_functions.py` lines 92-98). -/
def blast_outpath (query target : String) : String :=
  "blast/" ++ query ++ "_vs_" ++ target ++ ".tab"

/-- The rerun test of `generate_blast_list` (`blast_functions.py` line
100): `not os.path.exists(outpath) or os.path.getsize(outpath) == 0`. -/
def blast_needs_run (fs : FileSys) (outpath : String) : Bool :=
  match fs outpath with
  | none => true
  | some sz => sz == 0

/-- The inner loop of `generate_blast_list` over the queries of one
target: the accumulator pairs the expected output list with the queued
command list (commands identified by their output path). -/
def generate_blast_inner (fs : FileSys) (target : String) :
    List String → List String × List String → List String × List String
  | [], acc => acc
  | query :: rest, acc =>
    generate_blast_inner fs target rest
      (acc.1 ++ [blast_outpath query target],
       if blast_needs_run fs (blast_outpath query target) then
         acc.2 ++ [blast_outpath query target]
       else acc.2)

/-- The outer loop of `generate_blast_list` over the targets. -/
def generate_blast_outer (fs : FileSys) (queries : List String) :
    List String → List String × List String → List String × List String
  | [], acc => acc
  | target :: rest, acc =>
    generate_blast_outer fs queries rest
      (generate_blast_inner fs target queries acc)

/-- `generate_blast_list`: expected outputs and queued commands. -/
def generate_blast_list (fs : FileSys) (queries targets : List String) :
    List String × List String :=
  generate_blast_outer fs queries targets ([], [])

/-- The alignment output path of one unaligned file
(`mafft.py` lines 35-37). -/
def mafft_outpath (unalign : String) : String :=
  "aligned/" ++ unalign ++ ".aln"

/-- The loop of `run_mafft` (`mafft.py` lines 34-54): a unit is skipped
exactly when its output path exists (`os.path.exists(outname)`), with no
size test; otherwise its command is run or queued. -/
def run_mafft_go (fs : FileSys) :
    List String → List String × List String → List String × List String
  | [], acc => acc
  | unalign :: rest, acc =>
    run_mafft_go fs rest
      (acc.1 ++ [mafft_outpath unalign],
       if (fs (mafft_outpath unalign)).isSome then acc.2
       else acc.2 ++ [mafft_outpath unalign])

/-- `run_mafft`: aligned outputs and the commands run or queued. -/
def run_mafft_cmds (fs : FileSys) (unaligned : List String) :
    List String × List String :=
  run_mafft_go fs unaligned ([], [])

/-- The code test for one search unit agrees with missing-or-empty. -/
theorem blast_needs_run_iff (fs : FileSys) (o : String) :
    blast_needs_run fs o = decide (fs o = none ∨ fs o = some 0) := by
  rw [blast_needs_run]
  cases h : fs o with
  | none => simp
  | some sz =>
    simp only [h]
    by_cases hz : sz = 0
    · simp [hz]
    · simp [hz]

/-- Accumulator form of the inner search loop. -/
theorem generate_blast_inner_snd (fs : FileSys) (target : String) :
    ∀ (queries : List String) (acc : List String × List String),
      (generate_blast_inner fs target queries acc).2 =
        acc.2 ++ (queries.map (fun q => blast_outpath q target)).filter
          (fun o => decide (fs o = none ∨ fs o = some 0)) := by
  intro queries
  induction queries with
  | nil =>
    intro acc
    simp [generate_blast_inner]
  | cons q rest ih =>
    intro acc
    rw [generate_blast_inner, ih, List.map_cons, List.filter_cons,
      ← blast_needs_run_iff]
    by_cases hq : blast_needs_run fs (blast_outpath q target) = true
    · simp [hq]
    · simp only [Bool.not_eq_true] at hq
      simp [hq]

/-- Accumulator form of the outer search loop. -/
theorem generate_blast_outer_snd (fs : FileSys) (queries : List String) :
    ∀ (targets : List String) (acc : List String × List String),
      (generate_blast_outer fs queries targets acc).2 =
        acc.2 ++ ((targets.map (fun t =>
            queries.map (fun q => blast_outpath q t))).flatten).filter
          (fun o => decide (fs o = none ∨ fs o = some 0)) := by
  intro targets
  induction targets with
  | nil =>
    intro acc
    simp [generate_blast_outer]
  | cons t rest ih =>
    intro acc
    rw [generate_blast_outer, ih, generate_blast_inner_snd, List.map_cons,
      List.flatten_cons, List.filter_append, List.append_assoc]

/-- Accumulator form of the alignment loop. -/
theorem run_mafft_go_snd (fs : FileSys) :
    ∀ (unaligned : List String) (acc : List String × List String),
      (run_mafft_go fs unaligned acc).2 =
        acc.2 ++ (unaligned.map mafft_outpath).filter
          (fun o => decide (fs o = none)) := by
  intro unaligned
  induction unaligned with
  | nil =>
    intro acc
    simp [run_mafft_go]
  | cons u rest ih =>
    intro acc
    rw [run_mafft_go, ih, List.map_cons, List.filter_cons]
    by_cases hu : fs (mafft_outpath u) = none
    · simp [hu, Option.isSome_none]
    · rcases Option.ne_none_iff_exists'.mp hu with ⟨v, hv⟩
      simp [hv]

/-- C4 amended: a search unit is queued for (re)execution exactly when its
output file is missing or has size zero, while an alignment unit is rerun
exactly when its output file is missing: an existing empty alignment file
is treated as complete and skipped, never as an error. -/
theorem C4_rerun_conditions (fs : FileSys)
    (queries targets unaligned : List String) :
    (generate_blast_list fs queries targets).2 =
      ((targets.map (fun t =>
          queries.map (fun q => blast_outpath q t))).flatten).filter
        (fun o => decide (fs o = none ∨ fs o = some 0)) ∧
    (run_mafft_cmds fs unaligned).2 =
      (unaligned.map mafft_outpath).filter (fun o => decide (fs o = none)) := by
  constructor
  · rw [generate_blast_list, generate_blast_outer_snd]
    rfl
  · rw [run_mafft_cmds, run_mafft_go_snd]
    rfl

/-- C4 counterexample: an existing size-zero alignment output is not rerun,
refuting the claim that a per-query alignment unit is re-executed when its
output file is empty; the corresponding search unit with an empty output is
rerun. -/
theorem C4_counterexample :
    (fun p => if p = "aligned/gene1_h1.aln" then some 0
      else if p = "blast/gene1_h1_vs_g1.fna.tab" then some 0
      else none : FileSys) "aligned/gene1_h1.aln" = some 0 ∧
    (run_mafft_cmds
      (fun p => if p = "aligned/gene1_h1.aln" then some 0
        else if p = "blast/gene1_h1_vs_g1.fna.tab" then some 0
        else none) ["gene1_h1"]).2 = [] ∧
    (generate_blast_list
      (fun p => if p = "aligned/gene1_h1.aln" then some 0
        else if p = "blast/gene1_h1_vs_g1.fna.tab" then some 0
        else none) ["gene1_h1"] ["g1.fna"]).2 =
      ["blast/gene1_h1_vs_g1.fna.tab"] := by
  refine ⟨rfl, rfl, rfl⟩

/-! ### Ingested table categories and the presence matrix
(`read_blast_results` and `print_blast_summary`, `blast_functions.py`) -/

/-- A pandas frame of hit rows together with the category sets of its two
categorical key columns (`qseqid` and `sseqid` have dtype `category`).
`astype('category')` fixes the categories at construction; later row
filtering does not remove categories, and `groupby` on categorical keys
with the pandas default `observed=False` produces one group per category
combination, zero-sized ones included. -/
structure BlastFrame where
  rows : List HitRecord
  sseqid_cats : List Nat
  qseqid_cats : List String

/-- The fresh path of `read_blast_results` (`blast_functions.py` lines
174-192): rows are the raw rows passing
`(pident >= identity) & (qcovhsp >= coverage)`, but the categories are the
distinct values of the raw pre-filter columns, because `astype(dtypes)` is
applied before the `query` filter.  Category order is modelled as first
occurrence; no claim depends on it. -/
def read_blast_results_fresh (raw : List HitRecord)
    (coverage identity : Int) : BlastFrame :=
  { rows := raw.filter
      (fun r => decide ((identity : Rat) ≤ r.pident ∧ coverage ≤ r.qcovhsp)),
    sseqid_cats := (raw.map HitRecord.sseqid).dedup,
    qseqid_cats := (raw.map HitRecord.qseqid).dedup }

/-- The cached path of `read_blast_results` (lines 171-173): the table is
reloaded from `blast_results.tsv`, so the categories are the distinct
values of the already filtered rows. -/
def read_blast_results_cached (cached : List HitRecord) : BlastFrame :=
  { rows := cached,
    sseqid_cats := (cached.map HitRecord.sseqid).dedup,
    qseqid_cats := (cached.map HitRecord.qseqid).dedup }

/-- The presence matrix of `print_blast_summary` (lines 221-226):
`blastout.groupby(['sseqid', 'qseqid']).size().unstack('qseqid',
fill_value=0)`: one row per sseqid category, one column per qseqid
category, counting the matching rows, zero for unobserved pairs. -/
def presence_matrix (f : BlastFrame) : PresenceMatrix Nat :=
  { queries := f.qseqid_cats,
    rows := f.sseqid_cats.map (fun g =>
      (g, f.qseqid_cats.map (fun q =>
        (f.rows.filter
          (fun r => decide (r.sseqid = g ∧ r.qseqid = q))).length))) }

/-- The raw table of the C10 counterexample: genome 0 has one passing hit
for gene1; genome 1 has one raw hit whose identity 10 fails the threshold
30, hence zero threshold-passing hits. -/
def rawC10 : List HitRecord :=
  [⟨0, "gene1", 0, "acc0", 99, 100, 100, 200, 100, "t0", "ATG"⟩,
   ⟨1, "gene1", 1, "acc1", 10, 100, 100, 50, 100, "t1", "ATG"⟩]

/-- C10 counterexample: in a fresh computation with coverage 50 and
identity 30, genome 1 has zero threshold-passing hits yet appears in the
presence matrix, is counted in the genome denominator, triggers the
removal warning at allow-missing 0, and is even kept at allow-missing 1. -/
theorem C10_counterexample :
    (read_blast_results_fresh rawC10 50 30).rows.filter
        (fun r => decide (r.sseqid = 1)) = [] ∧
    1 ∈ summary_genome_names
      (presence_matrix (read_blast_results_fresh rawC10 50 30)) ∧
    summary_genomes_count
      (presence_matrix (read_blast_results_fresh rawC10 50 30)) = 2 ∧
    1 ∈ genome_drop_warnings
      (presence_matrix (read_blast_results_fresh rawC10 50 30)) 0 ∧
    1 ∈ genome_keeps
      (presence_matrix (read_blast_results_fresh rawC10 50 30)) 1 := by
  decide

/-- Every kept genome is a matrix row name. -/
theorem genome_keeps_subset_names {γ : Type} [DecidableEq γ]
    (m : PresenceMatrix γ) (nallowed : Int) (g : γ)
    (h : g ∈ genome_keeps m nallowed) : g ∈ summary_genome_names m := by
  unfold genome_keeps at h
  unfold summary_genome_names
  rcases List.mem_append.mp h with h1 | h1
  · rcases List.mem_map.mp h1 with ⟨r, hr, hrg⟩
    exact List.mem_map.mpr ⟨r, (List.mem_filter.mp hr).1, hrg⟩
  · rcases List.mem_map.mp h1 with ⟨r, hr, hrg⟩
    exact List.mem_map.mpr
      ⟨r, (List.mem_filter.mp (List.mem_filter.mp hr).1).1, hrg⟩

/-- Every warned genome is a matrix row name. -/
theorem genome_drop_warnings_subset_names {γ : Type} [DecidableEq γ]
    (m : PresenceMatrix γ) (nallowed : Int) (g : γ)
    (h : g ∈ genome_drop_warnings m nallowed) :
    g ∈ summary_genome_names m := by
  unfold genome_drop_warnings at h
  unfold summary_genome_names
  rcases List.mem_map.mp h with ⟨r, hr, hrg⟩
  exact List.mem_map.mpr
    ⟨r, (List.mem_filter.mp (List.mem_filter.mp hr).1).1, hrg⟩

/-- C10 amended: a genome absent from the sseqid category set of the
ingested table is absent from the presence matrix and its statistics,
receives no removal warning, and is silently excluded from the kept set;
the statistic denominators are the sizes of the category sets.  The
categories of the cached path are exactly the genomes with at least one
threshold-passing row, while those of the fresh path are the genomes with
at least one raw row, passing or not. -/
theorem C10_absent_genome (f : BlastFrame) (g : Nat) (nallowed : Int)
    (hg : g ∉ f.sseqid_cats) :
    g ∉ summary_genome_names (presence_matrix f) ∧
    g ∉ genome_keeps (presence_matrix f) nallowed ∧
    g ∉ genome_drop_warnings (presence_matrix f) nallowed ∧
    summary_genomes_count (presence_matrix f) = f.sseqid_cats.length ∧
    summary_queries_count (presence_matrix f) = f.qseqid_cats.length ∧
    (∀ (cached : List HitRecord) (g' : Nat),
      g' ∈ (read_blast_results_cached cached).sseqid_cats ↔
        ∃ r ∈ cached, r.sseqid = g') ∧
    (∀ (raw : List HitRecord) (cov idt : Int) (g' : Nat),
      g' ∈ (read_blast_results_fresh raw cov idt).sseqid_cats ↔
        ∃ r ∈ raw, r.sseqid = g') := by
  have hnames : summary_genome_names (presence_matrix f) = f.sseqid_cats := by
    unfold summary_genome_names presence_matrix
    rw [List.map_map]
    apply List.map_id''
    intro x
    rfl
  refine ⟨?_, ?_, ?_, ?_, ?_, ?_, ?_⟩
  · rw [hnames]
    exact hg
  · intro h
    exact hg (hnames ▸ genome_keeps_subset_names _ nallowed g h)
  · intro h
    exact hg (hnames ▸ genome_drop_warnings_subset_names _ nallowed g h)
  · unfold summary_genomes_count presence_matrix
    exact List.length_map _ _
  · rfl
  · intro cached g'
    rw [read_blast_results_cached]
    simp only [List.mem_dedup, List.mem_map]
  · intro raw cov idt g'
    rw [read_blast_results_fresh]
    simp only [List.mem_dedup, List.mem_map]

/-- C10 witness: for a cached single-row table for genome 0, genome 5 is
absent from the category set and therefore from the kept set and the
warnings, and the genome denominator is 1. -/
theorem C10_absent_genome_witness :
    5 ∉ genome_keeps
      (presence_matrix (read_blast_results_cached
        [⟨0, "gene1", 0, "acc0", 99, 100, 100, 200, 100, "t0", "ATG"⟩])) 0 ∧
    5 ∉ genome_drop_warnings
      (presence_matrix (read_blast_results_cached
        [⟨0, "gene1", 0, "acc0", 99, 100, 100, 200, 100, "t0", "ATG"⟩])) 0 ∧
    summary_genomes_count
      (presence_matrix (read_blast_results_cached
        [⟨0, "gene1", 0, "acc0", 99, 100, 100, 200, 100, "t0", "ATG"⟩])) = 1 := by
  have h := C10_absent_genome
    (read_blast_results_cached
      [⟨0, "gene1", 0, "acc0", 99, 100, 100, 200, 100, "t0", "ATG"⟩])
    5 0 (by decide)
  refine ⟨h.2.1, h.2.2.1, ?_⟩
  rw [h.2.2.2.1]
  decide

end AutoMLSA
